import Mathlib

/-!
Verification of the UNFI-West deduction report converter
(`DeductionConvertUNFIWest.py`).

The development shallowly embeds the text-to-record parser
(`parse_pdf_content`) and the aggregation stage (`create_summary_tables`).
A text line is modelled as its list of characters; Python `int`/`float`
conversions are modelled as partial parsers returning `Option Int` /
`Option ℚ` (decimal literals with an optional sign; exponent, `inf`/`nan`,
digit-group underscores and non-ASCII digits do not occur in this report
format and are out of scope).  A dropped row (a swallowed per-row
exception in the source) is modelled as `none`.
-/

set_option maxRecDepth 8000

/-- A text line, as its list of characters. -/
abbrev Line := List Char

/-- View of a string literal as a `Line`. -/
def String.toLine (s : String) : Line := s.data

namespace UNFIWest

/-- Characters treated as whitespace by Python's `str.strip` / `str.split`
(ASCII subset, which is all that occurs in this report format). -/
def pyIsSpace (c : Char) : Bool :=
  c = ' ' || c = '\t' || c = '\n' || c = '\x0d' || c = '\x0b' || c = '\x0c'

/-- Python `str.strip()`: remove leading and trailing whitespace. -/
def pyStrip (l : Line) : Line :=
  ((l.dropWhile pyIsSpace).reverse.dropWhile pyIsSpace).reverse

/-- Helper for `splitWs`: `acc` holds the (reversed) current word. -/
def splitWsAux : Line → Line → List Line
  | [], acc => if acc.isEmpty then [] else [acc.reverse]
  | c :: cs, acc =>
    if pyIsSpace c then
      if acc.isEmpty then splitWsAux cs [] else acc.reverse :: splitWsAux cs []
    else splitWsAux cs (c :: acc)

/-- Python `str.split()` with no argument: split on runs of whitespace,
dropping empty pieces. -/
def splitWs (l : Line) : List Line := splitWsAux l []

/-- Python `" ".join(tokens)`. -/
def joinSpace : List Line → Line
  | [] => []
  | [t] => t
  | t :: ts => t ++ ' ' :: joinSpace ts

/-- Whether `l` begins with the token list `pat` (Python `str.startswith`). -/
def leadsWith : Line → Line → Bool
  | [], _ => true
  | _ :: _, [] => false
  | p :: ps, c :: cs => p = c && leadsWith ps cs

/-- Python substring containment (`pat in l`). -/
def hasSub : Line → Line → Bool
  | [], pat => leadsWith pat []
  | c :: cs, pat => leadsWith pat (c :: cs) || hasSub cs pat

/-- Python `l[l.index(pat) + len(pat):]`: everything after the first
occurrence of `pat`.  In the source this is only reached when `pat` was
found inside `l`, so the `[]` result for a missing pattern is unreachable
there. -/
def afterFirstOcc : Line → Line → Line
  | [], _ => []
  | c :: cs, pat =>
    if leadsWith pat (c :: cs) then (c :: cs).drop pat.length
    else afterFirstOcc cs pat

/-- Numeric value of a digit string (most significant digit first). -/
def digitsToNat (l : Line) : Nat := l.foldl (fun n c => 10 * n + (c.toNat - 48)) 0

/-- Unsigned part of Python `int(token)`: one or more decimal digits. -/
def pyIntCore (l : Line) : Option Int :=
  if !l.isEmpty && l.all Char.isDigit then some (digitsToNat l) else none

/-- Python `int(token)` on a whitespace-free token: optional sign followed
by digits; `none` models the `ValueError` swallowed by the row handler. -/
def pyInt (t : Line) : Option Int :=
  match t with
  | [] => pyIntCore []
  | c :: cs =>
    if c = '-' then (pyIntCore cs).map (fun n => -n)
    else if c = '+' then pyIntCore cs
    else pyIntCore (c :: cs)

/-- Unsigned part of Python `float(token)`: `digits`, `digits.`,
`digits.digits` or `.digits`, as an exact rational. -/
def pyFloatMag (l : Line) : Option ℚ :=
  let ip := l.takeWhile Char.isDigit
  let rest := l.drop ip.length
  match rest with
  | [] => if ip.isEmpty then none else some (mkRat (digitsToNat ip) 1)
  | '.' :: fr =>
    if fr.all Char.isDigit && (!ip.isEmpty || !fr.isEmpty) then
      some (mkRat (digitsToNat ip * 10 ^ fr.length + digitsToNat fr) (10 ^ fr.length))
    else none
  | _ => none

/-- Python `float(token)` on a whitespace-free token (decimal literals;
`none` models the swallowed `ValueError`). -/
def pyFloat (t : Line) : Option ℚ :=
  match t with
  | [] => pyFloatMag []
  | c :: cs =>
    if c = '-' then (pyFloatMag cs).map (fun q => -q)
    else if c = '+' then pyFloatMag cs
    else pyFloatMag (c :: cs)

/-- The location-header pattern `^[A-Za-z]+\s+[A-Z]{2}$` of the source:
one alphabetic word, whitespace, then exactly two uppercase letters.
Greedy matching of the maximal alphabetic and whitespace runs is exact
here, since backtracking either run would leave a character the next
regex piece cannot accept.  The line has been stripped, so the
trailing-newline case of `$` cannot arise. -/
def locMatch (l : Line) : Bool :=
  let w := l.takeWhile Char.isAlpha
  let r1 := l.drop w.length
  let sp := r1.takeWhile pyIsSpace
  let r2 := r1.drop sp.length
  !w.isEmpty && !sp.isEmpty &&
    (match r2 with
     | [a, b] => a.isUpper && b.isUpper
     | _ => false)

/-- Match of the customer pattern `Customer : \[(\d+)\]-(.*)` anchored at
the start of `l`; returns (group 1, group 2).  `\d+` must take the
maximal digit run (shortening it would put a digit where `]` is
required), and `(.*)` runs to the next newline or the end. -/
def customerAt (l : Line) : Option (Line × Line) :=
  if leadsWith ("Customer : [").toLine l then
    let r1 := l.drop 12
    let ds := r1.takeWhile Char.isDigit
    let r2 := r1.drop ds.length
    if !ds.isEmpty && leadsWith ("]-").toLine r2 then
      some (ds, (r2.drop 2).takeWhile (fun c => c ≠ '\n'))
    else none
  else none

/-- Python `re.search(r'Customer : \[(\d+)\]-(.*)', l)`: the leftmost
position where the customer pattern matches. -/
def reSearchCustomer : Line → Option (Line × Line)
  | [] => none
  | c :: cs =>
    match customerAt (c :: cs) with
    | some r => some r
    | none => reSearchCustomer cs

/-- The invoice-anchor test `re.match(r'^\d{6,}$', token)`: the whole
token is six or more digits. -/
def isAnchor (t : Line) : Bool := decide (6 ≤ t.length) && t.all Char.isDigit

/-- Whether `l` starts with (at least) `n` decimal digits. -/
def isDigitRun (l : Line) (n : Nat) : Bool :=
  decide (n ≤ l.length) && (l.take n).all Char.isDigit

/-- Python `re.search(r'(\d{8,9})', l)`: the leftmost run of 8 digits,
extended greedily to 9 when a ninth digit follows. -/
def reSearch89 : Line → Option Line
  | [] => none
  | c :: cs =>
    if isDigitRun (c :: cs) 8 then
      some (if isDigitRun (c :: cs) 9 then (c :: cs).take 9 else (c :: cs).take 8)
    else reSearch89 cs

/-- The eleven decomposed fields of one item row (lines 82-138 of the
source), before the scanner context is attached. -/
structure ItemFields where
  brand : Line
  product : Line
  unit : Line
  description : Line
  invoice : Line
  ordered : Int
  shipped : Int
  wholesale : ℚ
  discount : Line
  mcb_percent : Line
  mcb : ℚ
deriving DecidableEq

/-- The primary positional path (source lines 117-138): the anchor token at
`descIndex` is the invoice and the following tokens are consumed in fixed
order, with the source's out-of-range defaults. -/
def primaryCore (parts : List Line) (descIndex : Nat)
    (brand product unit description : Line) : Option ItemFields :=
  let invoice := parts.getD descIndex []
  match (match parts.get? (descIndex + 1) with | some t => pyInt t | none => some 0),
        (match parts.get? (descIndex + 2) with | some t => pyInt t | none => some 0),
        (match parts.get? (descIndex + 3) with | some t => pyFloat t | none => some 0),
        (match parts.get? (descIndex + 6) with | some t => pyFloat t | none => some 0) with
  | some ordered, some shipped, some wholesale, some mcb =>
    some ⟨brand, product, unit, description, invoice, ordered, shipped, wholesale,
          parts.getD (descIndex + 4) ("0%").toLine,
          parts.getD (descIndex + 5) ("0%").toLine, mcb⟩
  | _, _, _, _ => none

/-- The regex fallback path (source lines 99-116): search the raw line for
the first 8-9 digit run as invoice, re-tokenize everything after it, and
require at least five trailing tokens.  `line.index(invoice)` coincides
with the position of the regex match: an earlier occurrence of the matched
digits would itself start a run of eight digits, contradicting leftmost
search. -/
def fallbackCore (line : Line) (brand product unit description : Line) :
    Option ItemFields :=
  match reSearch89 line with
  | none => none
  | some invoice =>
    let remaining := pyStrip (afterFirstOcc line invoice)
    let num_parts := splitWs remaining
    if 5 ≤ num_parts.length then
      match pyInt (num_parts.getD 0 []), pyInt (num_parts.getD 1 []),
            pyFloat (num_parts.getD 2 []),
            (if 5 < num_parts.length then pyFloat (num_parts.getD 5 []) else some 0) with
      | some ordered, some shipped, some wholesale, some mcb =>
        some ⟨brand, product, unit, description, invoice, ordered, shipped, wholesale,
              num_parts.getD 3 [], num_parts.getD 4 [], mcb⟩
      | _, _, _, _ => none
    else none

/-- Item-row decomposition (source lines 74-139), applied to the stripped
line: require at least 11 whitespace tokens, read brand / product / unit
positionally, scan the description up to the first all-digit token of
length ≥ 6, then take the primary path when at least five tokens follow
the anchor and the regex fallback otherwise.  `none` is a dropped row. -/
def itemFields (line : Line) : Option ItemFields :=
  let parts := splitWs line
  if parts.length < 11 then none
  else
    let brand := parts.getD 0 []
    let product := parts.getD 1 []
    let unit := parts.getD 2 [] ++ ' ' :: parts.getD 3 []
    let descParts := (parts.drop 4).takeWhile (fun t => !(isAnchor t))
    let descIndex := 4 + descParts.length
    let description := joinSpace descParts
    if parts.length ≤ descIndex + 5 then
      fallbackCore line brand product unit description
    else
      primaryCore parts descIndex brand product unit description

/-- The primary strategy as a standalone function: `none` when the guard
`desc_index >= len(parts) - 5` would send the row to the fallback. -/
def primaryFields (line : Line) : Option ItemFields :=
  let parts := splitWs line
  if parts.length < 11 then none
  else
    let descParts := (parts.drop 4).takeWhile (fun t => !(isAnchor t))
    let descIndex := 4 + descParts.length
    if parts.length ≤ descIndex + 5 then none
    else
      primaryCore parts descIndex (parts.getD 0 []) (parts.getD 1 [])
        (parts.getD 2 [] ++ ' ' :: parts.getD 3 []) (joinSpace descParts)

/-- The fallback strategy as a standalone function (no primary guard). -/
def fallbackFields (line : Line) : Option ItemFields :=
  let parts := splitWs line
  if parts.length < 11 then none
  else
    let descParts := (parts.drop 4).takeWhile (fun t => !(isAnchor t))
    fallbackCore line (parts.getD 0 []) (parts.getD 1 [])
      (parts.getD 2 [] ++ ' ' :: parts.getD 3 []) (joinSpace descParts)

/-- One emitted record: the decomposed item fields plus the scanner
context captured when the row was appended (source lines 141-145). -/
structure Record extends ItemFields where
  customer_id : Line
  customer_name : Line
  location : Line
deriving DecidableEq

/-- Build the appended row from decomposed fields and the current context. -/
def mkRecord (f : ItemFields) (cid cname loc : Line) : Record :=
  { toItemFields := f, customer_id := cid, customer_name := cname, location := loc }

/-- The scanner state of `parse_pdf_content`: the three context variables
and the accumulated data rows. -/
structure ParseState where
  current_location : Line
  current_customer_id : Line
  current_customer_name : Line
  main_data : List Record
deriving DecidableEq

/-- The state at the top of the scan loop (source lines 47-49). -/
def initState : ParseState := ⟨[], [], [], []⟩

/-- One iteration of the scan loop (source lines 51-149): strip, skip
blanks, location header, customer header, item row, else noise. -/
def processLine (st : ParseState) (l0 : Line) : ParseState :=
  let line := pyStrip l0
  if line.isEmpty then st
  else if locMatch line && !(hasSub line ("Customer").toLine) then
    { st with current_location := line }
  else if leadsWith ("Customer :").toLine line then
    match reSearchCustomer line with
    | some (cid, cname) =>
      { st with current_customer_id := cid, current_customer_name := pyStrip cname }
    | none => st
  else if leadsWith ("*HRMLSHRVS").toLine line then
    match itemFields line with
    | some f =>
      { st with main_data := st.main_data ++
          [mkRecord f st.current_customer_id st.current_customer_name st.current_location] }
    | none => st
  else st

/-- The whole scan of `parse_pdf_content` over an input line sequence. -/
def parseLines (lines : List Line) : ParseState :=
  lines.foldl processLine initState

/-- A spreadsheet cell of the produced tables (string, integer or
currency value). -/
inductive Cell where
  | str (s : Line)
  | int (i : Int)
  | dec (q : ℚ)
deriving DecidableEq

/-- The fixed 14 column names of the main table (source lines 40-42). -/
def headers : List Line :=
  [("Brand").toLine, ("Product").toLine, ("Unit").toLine, ("Description").toLine,
   ("Invoice").toLine, ("Ordered").toLine, ("Shipped").toLine, ("Wholesale").toLine,
   ("Discount%").toLine, ("MCB%").toLine, ("MCB").toLine,
   ("Customer ID").toLine, ("Customer Name").toLine, ("Location").toLine]

/-- One record as the 14-cell data row appended at source lines 141-145. -/
def recordRow (r : Record) : List Cell :=
  [.str r.brand, .str r.product, .str r.unit, .str r.description, .str r.invoice,
   .int r.ordered, .int r.shipped, .dec r.wholesale, .str r.discount,
   .str r.mcb_percent, .dec r.mcb, .str r.customer_id, .str r.customer_name,
   .str r.location]

/-- The `main_data` table of `parse_pdf_content`: the header row followed
by one row per record in scan order. -/
def mainDataTable (lines : List Line) : List (List Cell) :=
  (headers.map Cell.str) :: (parseLines lines).main_data.map recordRow

/-!
The aggregation stage `create_summary_tables`.  The pandas
`to_numeric(...).fillna(0)` coercions are identities here, because the
parser already produced typed integer / rational measures.  Each summary
groups the records by exact key equality and sums `shipped` and `mcb`;
pandas orders the groups by sorted key, which no claim depends on, so the
groups are listed here in a duplicate-free enumeration of the keys.
-/

/-- Shipped subtotal of the records whose `location` equals `k`. -/
def shippedAtLoc (recs : List Record) (k : Line) : Int :=
  ((recs.filter (fun r => decide (r.location = k))).map (fun r => r.shipped)).sum

/-- MCB subtotal of the records whose `location` equals `k`. -/
def mcbAtLoc (recs : List Record) (k : Line) : ℚ :=
  ((recs.filter (fun r => decide (r.location = k))).map (fun r => r.mcb)).sum

/-- Location summary: one row (location, total items, total MCB) per
distinct location key (source lines 174-180). -/
def locationSummary (recs : List Record) : List (Line × Int × ℚ) :=
  ((recs.map (fun r => r.location)).dedup).map
    (fun k => (k, shippedAtLoc recs k, mcbAtLoc recs k))

/-- Customer summary: grouped by (customer id, customer name, location)
(source lines 183-189). -/
def customerSummary (recs : List Record) : List ((Line × Line × Line) × Int × ℚ) :=
  ((recs.map (fun r => (r.customer_id, r.customer_name, r.location))).dedup).map
    (fun k =>
      (k, ((recs.filter (fun r =>
              decide ((r.customer_id, r.customer_name, r.location) = k))).map
              (fun r => r.shipped)).sum,
          ((recs.filter (fun r =>
              decide ((r.customer_id, r.customer_name, r.location) = k))).map
              (fun r => r.mcb)).sum))

/-- Product summary: grouped by (product, description)
(source lines 192-198). -/
def productSummary (recs : List Record) : List ((Line × Line) × Int × ℚ) :=
  ((recs.map (fun r => (r.product, r.description))).dedup).map
    (fun k =>
      (k, ((recs.filter (fun r => decide ((r.product, r.description) = k))).map
              (fun r => r.shipped)).sum,
          ((recs.filter (fun r => decide ((r.product, r.description) = k))).map
              (fun r => r.mcb)).sum))

/-- Location summary as header row plus data rows. -/
def locationSummaryTable (recs : List Record) : List (List Cell) :=
  ([("Location").toLine, ("Total Items").toLine, ("Total MCB").toLine].map Cell.str) ::
    (locationSummary recs).map (fun row => [Cell.str row.1, Cell.int row.2.1, Cell.dec row.2.2])

/-- Customer summary as header row plus data rows. -/
def customerSummaryTable (recs : List Record) : List (List Cell) :=
  ([("Customer ID").toLine, ("Customer Name").toLine, ("Location").toLine,
    ("Total Items").toLine, ("Total MCB").toLine].map Cell.str) ::
    (customerSummary recs).map (fun row =>
      [Cell.str row.1.1, Cell.str row.1.2.1, Cell.str row.1.2.2,
       Cell.int row.2.1, Cell.dec row.2.2])

/-- Product summary as header row plus data rows. -/
def productSummaryTable (recs : List Record) : List (List Cell) :=
  ([("Product").toLine, ("Description").toLine, ("Total Items").toLine,
    ("Total MCB").toLine].map Cell.str) ::
    (productSummary recs).map (fun row =>
      [Cell.str row.1.1, Cell.str row.1.2, Cell.int row.2.1, Cell.dec row.2.2])

/-!
Classification predicates, read off the scan loop, used to state the
context-inheritance and header claims.
-/

/-- A (stripped) line that the scanner classifies as a location header. -/
def isLocHeader (s : Line) : Bool :=
  locMatch s && !(hasSub s ("Customer").toLine)

/-- A (stripped) line that the scanner classifies as a customer header
that actually updates the context (the bracket pattern matched). -/
def isCustHeader (s : Line) : Bool :=
  !(isLocHeader s) && leadsWith ("Customer :").toLine s && (reSearchCustomer s).isSome

/-- The (id, name) pair a matching customer header installs. -/
def custPair (s : Line) : Line × Line :=
  match reSearchCustomer s with
  | some (cid, cname) => (cid, pyStrip cname)
  | none => ([], [])

/-- The most recent location header of `lines` in scan order (empty when
no line classifies as one). -/
def lastLocHeader (lines : List Line) : Line :=
  (((lines.map pyStrip).filter isLocHeader).getLastD [])

/-- The (id, name) installed by the most recent matching customer header
of `lines` (empty strings when there is none). -/
def lastCustHeader (lines : List Line) : Line × Line :=
  ((((lines.map pyStrip).filter isCustHeader).map custPair).getLastD ([], []))

/-- The location pattern as the specification words it: one or more
alphabetic words followed by a two-letter uppercase code.  This is the
specification-side pattern compared against the source's `locMatch`. -/
def specLocWords (l : Line) : Bool :=
  let toks := splitWs (pyStrip l)
  match toks.getLast? with
  | some code =>
    decide (2 ≤ toks.length) &&
    toks.dropLast.all (fun t => !t.isEmpty && t.all Char.isAlpha) &&
    (match code with
     | [a, b] => a.isUpper && b.isUpper
     | _ => false)
  | none => false

/-- A token of an item row is malformed-wise irrelevant: `true` when no
whitespace token of the line is an all-digit token of length ≥ 6 (the
invoice anchor never fires). -/
def noAnchorTok (l : Line) : Bool :=
  (splitWs l).all (fun t => !(isAnchor t))

/-- Whether the description field of decomposed item fields contains the
invoice digits as a substring. -/
def descContainsInvoice (f : ItemFields) : Bool :=
  hasSub f.description f.invoice

/-- A whitespace-free nonempty token, as produced by `splitWs`. -/
def goodTok (t : Line) : Prop := t ≠ [] ∧ ∀ c ∈ t, pyIsSpace c = false

instance goodTokDecidable (t : Line) : Decidable (goodTok t) :=
  inferInstanceAs (Decidable (t ≠ [] ∧ ∀ c ∈ t, pyIsSpace c = false))

end UNFIWest

namespace UNFIWest

lemma leadsWith_star {l : Line} (h : leadsWith ("*HRMLSHRVS").toLine l = true) :
    ∃ rest, l = '*' :: rest := by
  cases l with
  | nil => exact absurd h (by decide)
  | cons c cs =>
    rw [show ("*HRMLSHRVS").toLine = '*' :: ("HRMLSHRVS").toLine from rfl] at h
    simp only [leadsWith, Bool.and_eq_true, decide_eq_true_eq] at h
    exact ⟨cs, by rw [← h.1]⟩

lemma locMatch_star (rest : Line) : locMatch ('*' :: rest) = false := rfl

lemma customer_star (rest : Line) :
    leadsWith ("Customer :").toLine ('*' :: rest) = false := rfl

lemma processLine_item (st : ParseState) (l : Line)
    (h : leadsWith ("*HRMLSHRVS").toLine (pyStrip l) = true) :
    processLine st l =
      (match itemFields (pyStrip l) with
       | some f => { st with main_data := st.main_data ++
            [mkRecord f st.current_customer_id st.current_customer_name st.current_location] }
       | none => st) := by
  obtain ⟨rest, hr⟩ := leadsWith_star h
  simp only [processLine, hr, List.isEmpty_cons, locMatch_star, customer_star,
    Bool.false_and, Bool.false_eq_true, if_false, h, if_true]
  rw [hr] at h
  simp [h]

lemma processLine_item_none (st : ParseState) (l : Line)
    (h : leadsWith ("*HRMLSHRVS").toLine (pyStrip l) = true)
    (hm : itemFields (pyStrip l) = none) :
    processLine st l = st := by
  rw [processLine_item st l h, hm]

end UNFIWest

namespace UNFIWest

/-- C1: for every input line sequence, an item-row line whose decomposition
fails (token count below 11, anchor and fallback detection failure, or a
numeric conversion error) is dropped from the output and the scan of the
remaining lines is unaffected: parsing with the malformed line present
equals parsing with it removed, and no exception escapes (the scanner is a
total function). -/
theorem C1_malformed_rows_are_dropped (pre suf : List Line) (l : Line)
    (hs : leadsWith ("*HRMLSHRVS").toLine (pyStrip l) = true)
    (hm : itemFields (pyStrip l) = none) :
    parseLines (pre ++ l :: suf) = parseLines (pre ++ suf) := by
  unfold parseLines
  rw [List.foldl_append, List.foldl_append, List.foldl_cons,
    processLine_item_none _ l hs hm]

/-- Witness for C1 at a concrete malformed row between two good lines. -/
theorem C1_witness :
    leadsWith ("*HRMLSHRVS").toLine (pyStrip ("*HRMLSHRVS COCO 8OZ bad row").toLine) = true ∧
    itemFields (pyStrip ("*HRMLSHRVS COCO 8OZ bad row").toLine) = none ∧
    parseLines [("Boston MA").toLine, ("*HRMLSHRVS COCO 8OZ bad row").toLine,
        ("Customer : [1]-A").toLine]
      = parseLines [("Boston MA").toLine, ("Customer : [1]-A").toLine] :=
  ⟨by decide, by decide,
   C1_malformed_rows_are_dropped [("Boston MA").toLine] [("Customer : [1]-A").toLine]
     ("*HRMLSHRVS COCO 8OZ bad row").toLine (by decide) (by decide)⟩

/-- C9: processing an item-row line that is dropped as malformed leaves
current_location, current_customer_id and current_customer_name exactly as
they were and appends no Record. -/
theorem C9_malformed_row_frame (st : ParseState) (l : Line)
    (hs : leadsWith ("*HRMLSHRVS").toLine (pyStrip l) = true)
    (hm : itemFields (pyStrip l) = none) :
    (processLine st l).current_location = st.current_location ∧
    (processLine st l).current_customer_id = st.current_customer_id ∧
    (processLine st l).current_customer_name = st.current_customer_name ∧
    (processLine st l).main_data = st.main_data := by
  rw [processLine_item_none st l hs hm]
  exact ⟨rfl, rfl, rfl, rfl⟩

/-- Witness for C9 at a concrete state and short item row. -/
theorem C9_witness :
    (processLine ⟨("Boston MA").toLine, ("4821").toLine, ("Acme Foods").toLine, []⟩
        ("*HRMLSHRVS COCO 8OZ X 12345678 1").toLine).current_location
      = ("Boston MA").toLine ∧
    (processLine ⟨("Boston MA").toLine, ("4821").toLine, ("Acme Foods").toLine, []⟩
        ("*HRMLSHRVS COCO 8OZ X 12345678 1").toLine).main_data = [] :=
  (fun h => ⟨h.1.trans rfl, h.2.2.2.trans rfl⟩)
    (C9_malformed_row_frame ⟨("Boston MA").toLine, ("4821").toLine, ("Acme Foods").toLine, []⟩
      ("*HRMLSHRVS COCO 8OZ X 12345678 1").toLine (by decide) (by decide))

end UNFIWest

namespace UNFIWest

/-- C8: when no item-row is recognized (in particular for the empty line
sequence), parse returns a table holding only the 14-column header row and
the three summaries each hold only their header row; nothing fails. -/
theorem C8_no_records_header_only (lines : List Line)
    (h : (parseLines lines).main_data = []) :
    mainDataTable lines = [headers.map Cell.str] ∧
    (headers.map Cell.str).length = 14 ∧
    locationSummaryTable (parseLines lines).main_data
      = [[Cell.str ("Location").toLine, Cell.str ("Total Items").toLine,
          Cell.str ("Total MCB").toLine]] ∧
    customerSummaryTable (parseLines lines).main_data
      = [[Cell.str ("Customer ID").toLine, Cell.str ("Customer Name").toLine,
          Cell.str ("Location").toLine, Cell.str ("Total Items").toLine,
          Cell.str ("Total MCB").toLine]] ∧
    productSummaryTable (parseLines lines).main_data
      = [[Cell.str ("Product").toLine, Cell.str ("Description").toLine,
          Cell.str ("Total Items").toLine, Cell.str ("Total MCB").toLine]] := by
  refine ⟨?_, by decide, ?_, ?_, ?_⟩
  · simp [mainDataTable, h]
  · simp [locationSummaryTable, locationSummary, h]
  · simp [customerSummaryTable, customerSummary, h]
  · simp [productSummaryTable, productSummary, h]

/-- Witness for C8 at the empty line sequence. -/
theorem C8_witness :
    (parseLines []).main_data = [] ∧
    mainDataTable [] = [headers.map Cell.str] ∧
    locationSummaryTable (parseLines []).main_data
      = [[Cell.str ("Location").toLine, Cell.str ("Total Items").toLine,
          Cell.str ("Total MCB").toLine]] :=
  ⟨by decide, (C8_no_records_header_only [] (by decide)).1,
   (C8_no_records_header_only [] (by decide)).2.2.1⟩

end UNFIWest

namespace UNFIWest

lemma sum_ite_of_not_mem (a : Line) (c : Int) (ks : List Line) (hna : a ∉ ks) :
    (ks.map (fun k => if a = k then c else 0)).sum = 0 := by
  induction ks with
  | nil => rfl
  | cons k ks ih =>
    have h1 : a ≠ k := fun h => hna (h ▸ List.mem_cons_self k ks)
    simp only [List.map_cons, List.sum_cons, if_neg h1, zero_add]
    exact ih (fun h => hna (List.mem_cons_of_mem k h))

lemma sum_ite_of_mem (a : Line) (c : Int) (ks : List Line) (hnd : ks.Nodup)
    (ha : a ∈ ks) : (ks.map (fun k => if a = k then c else 0)).sum = c := by
  induction ks with
  | nil => exact absurd ha (List.not_mem_nil a)
  | cons k ks ih =>
    rcases List.mem_cons.mp ha with h | h
    · subst h
      rw [List.map_cons, List.sum_cons, if_pos rfl,
        sum_ite_of_not_mem a c ks (List.nodup_cons.mp hnd).1, add_zero]
    · have h1 : a ≠ k := by
        intro he; exact absurd (he ▸ h) (List.nodup_cons.mp hnd).1
      simp only [List.map_cons, List.sum_cons, if_neg h1, zero_add]
      exact ih (List.nodup_cons.mp hnd).2 h

lemma sum_shipped_partition (recs : List Record) (ks : List Line) (hnd : ks.Nodup)
    (hcov : ∀ r ∈ recs, r.location ∈ ks) :
    (ks.map (fun k => shippedAtLoc recs k)).sum = (recs.map (fun r => r.shipped)).sum := by
  induction recs with
  | nil =>
    simp [shippedAtLoc]
  | cons r rest ih =>
    have hstep : ∀ k, shippedAtLoc (r :: rest) k
        = (if r.location = k then r.shipped else 0) + shippedAtLoc rest k := by
      intro k
      by_cases h : r.location = k
      · simp [shippedAtLoc, List.filter_cons, h]
      · simp [shippedAtLoc, List.filter_cons, h]
    simp only [hstep, List.sum_map_add]
    rw [sum_ite_of_mem r.location r.shipped ks hnd (hcov r (List.mem_cons_self r rest)),
      ih (fun x hx => hcov x (List.mem_cons_of_mem r hx))]
    simp

/-- C6: for every record table, the sum of the total-items measure over
the rows of the location summary equals the sum of the shipped field over
all Records of the table. -/
theorem C6_location_totals_sum_to_shipped (recs : List Record) :
    ((locationSummary recs).map (fun row => row.2.1)).sum
      = (recs.map (fun r => r.shipped)).sum := by
  unfold locationSummary
  rw [List.map_map]
  have : ((fun row => row.2.1) ∘ fun k => ((k, shippedAtLoc recs k, mcbAtLoc recs k) : Line × Int × ℚ))
      = fun k => shippedAtLoc recs k := rfl
  rw [this]
  exact sum_shipped_partition recs _ (List.nodup_dedup _)
    (fun r hr => List.mem_dedup.mpr (List.mem_map_of_mem (fun x => x.location) hr))

end UNFIWest

namespace UNFIWest

lemma space_not_alpha {c : Char} (h : pyIsSpace c = true) : Char.isAlpha c = false := by
  simp only [pyIsSpace, Bool.or_eq_true, decide_eq_true_eq] at h
  rcases h with ((((h | h) | h) | h) | h) | h <;> subst h <;> decide

lemma alpha_not_space {c : Char} (h : Char.isAlpha c = true) : pyIsSpace c = false := by
  cases hps : pyIsSpace c with
  | false => rfl
  | true => rw [space_not_alpha hps] at h; cases h

lemma upper_alpha {c : Char} (h : Char.isUpper c = true) : Char.isAlpha c = true := by
  simp [Char.isAlpha, h]

lemma upper_not_space {c : Char} (h : Char.isUpper c = true) : pyIsSpace c = false :=
  alpha_not_space (upper_alpha h)

lemma dropWhile_cons_false {p : Char → Bool} {c : Char} (cs : Line) (h : p c = false) :
    List.dropWhile p (c :: cs) = c :: cs := by
  simp [List.dropWhile_cons, h]

lemma takeWhile_append_stop {α : Type} {p : α → Bool} (xs : List α) (y : α) (ys : List α)
    (hxs : ∀ c ∈ xs, p c = true) (hy : p y = false) :
    (xs ++ y :: ys).takeWhile p = xs := by
  induction xs with
  | nil => simp [List.takeWhile_cons, hy]
  | cons x xs ih =>
    rw [List.cons_append, List.takeWhile_cons, hxs x (List.mem_cons_self x xs)]
    simp only [if_true]
    rw [ih (fun c hc => hxs c (List.mem_cons_of_mem x hc))]

lemma pyStrip_of_ends (c d : Char) (m : Line) (hc : pyIsSpace c = false)
    (hd : pyIsSpace d = false) : pyStrip (c :: (m ++ [d])) = c :: (m ++ [d]) := by
  unfold pyStrip
  rw [dropWhile_cons_false _ hc]
  have h1 : (c :: (m ++ [d])).reverse = d :: (m.reverse ++ [c]) := by simp
  rw [h1, dropWhile_cons_false _ hd]
  simp

lemma pyStrip_shape (w sp : Line) (a b : Char) (hw : w ≠ [])
    (hwa : ∀ c ∈ w, Char.isAlpha c = true) (hb : Char.isUpper b = true) :
    pyStrip (w ++ (sp ++ [a, b])) = w ++ (sp ++ [a, b]) := by
  obtain ⟨c0, w', rfl⟩ : ∃ c0 w', w = c0 :: w' := by
    cases w with | nil => exact absurd rfl hw | cons x xs => exact ⟨x, xs, rfl⟩
  have hsh : (c0 :: w') ++ (sp ++ [a, b]) = c0 :: ((w' ++ (sp ++ [a])) ++ [b]) := by simp
  rw [hsh, pyStrip_of_ends c0 b _ (alpha_not_space (hwa c0 (List.mem_cons_self c0 w')))
    (upper_not_space hb)]

lemma locMatch_of_shape (w sp : Line) (a b : Char) (hw : w ≠ [])
    (hwa : ∀ c ∈ w, Char.isAlpha c = true) (hsp : sp ≠ [])
    (hsps : ∀ c ∈ sp, pyIsSpace c = true)
    (ha : Char.isUpper a = true) (hb : Char.isUpper b = true) :
    locMatch (w ++ (sp ++ [a, b])) = true := by
  obtain ⟨s0, sp', rfl⟩ : ∃ s0 sp', sp = s0 :: sp' := by
    cases sp with | nil => exact absurd rfl hsp | cons x xs => exact ⟨x, xs, rfl⟩
  have hs0 : Char.isAlpha s0 = false := space_not_alpha (hsps s0 (List.mem_cons_self s0 sp'))
  have ha' : pyIsSpace a = false := upper_not_space ha
  have htw : (w ++ (s0 :: (sp' ++ [a, b]))).takeWhile Char.isAlpha = w :=
    takeWhile_append_stop w s0 _ hwa hs0
  have hts : (s0 :: (sp' ++ [a, b])).takeWhile pyIsSpace = s0 :: sp' :=
    takeWhile_append_stop (s0 :: sp') a [b] hsps ha'
  have hd2 : (s0 :: (sp' ++ [a, b])).drop (s0 :: sp').length = [a, b] :=
    List.drop_left (s0 :: sp') [a, b]
  have hne : w.isEmpty = false := by
    cases w with | nil => exact absurd rfl hw | cons x xs => rfl
  unfold locMatch
  simp only [List.cons_append, htw, List.drop_left, hts, hd2, hne, ha, hb,
    List.isEmpty_cons, Bool.not_false, Bool.and_self, Bool.and_true, Bool.true_and]

/-- Counterexample to C2 as stated: "New York NY" is one-or-more
alphabetic words followed by a two-letter uppercase code and does not
contain "Customer", yet the scanner leaves current_location unchanged,
because the source pattern admits a single word before the code. -/
theorem C2_two_word_location_counterexample :
    specLocWords ("New York NY").toLine = true ∧
    hasSub ("New York NY").toLine ("Customer").toLine = false ∧
    (parseLines [("New York NY").toLine]).current_location ≠ ("New York NY").toLine :=
  ⟨by decide, by decide, by decide⟩

/-- C2 (amended): the location pattern of the code accepts exactly one
alphabetic word, whitespace, and a two-letter uppercase code.  For every
line of that shape not containing "Customer", the scanner sets
current_location to the trimmed line and emits no Record.  (The claim's
"one or more alphabetic words" fails: see the counterexample.) -/
theorem C2_one_word_location_header (st : ParseState) (w sp : Line) (a b : Char)
    (hw : w ≠ []) (hwa : ∀ c ∈ w, Char.isAlpha c = true)
    (hsp : sp ≠ []) (hsps : ∀ c ∈ sp, pyIsSpace c = true)
    (ha : Char.isUpper a = true) (hb : Char.isUpper b = true)
    (hnc : hasSub (w ++ (sp ++ [a, b])) ("Customer").toLine = false) :
    processLine st (w ++ (sp ++ [a, b]))
      = { st with current_location := w ++ (sp ++ [a, b]) } := by
  have hstrip := pyStrip_shape w sp a b hw hwa hb
  have hloc := locMatch_of_shape w sp a b hw hwa hsp hsps ha hb
  have hne : (w ++ (sp ++ [a, b])).isEmpty = false := by
    cases w with
    | nil => exact absurd rfl hw
    | cons c0 w' => rfl
  unfold processLine
  simp only [hstrip, hne, hloc, hnc, Bool.false_eq_true, if_false, Bool.not_false,
    Bool.and_true, if_true]

/-- Witness for the amended C2 at the line "Boston MA". -/
theorem C2_one_word_location_header_witness :
    (("Boston").toLine ≠ []) ∧ (∀ c ∈ ("Boston").toLine, Char.isAlpha c = true) ∧
    hasSub (("Boston").toLine ++ ([' '] ++ ['M', 'A'])) ("Customer").toLine = false ∧
    processLine initState (("Boston").toLine ++ ([' '] ++ ['M', 'A']))
      = { initState with current_location := ("Boston").toLine ++ ([' '] ++ ['M', 'A']) } :=
  ⟨by decide, by decide, by decide,
   C2_one_word_location_header initState ("Boston").toLine [' '] 'M' 'A'
     (by decide) (by decide) (by decide) (by decide) (by decide) (by decide) (by decide)⟩

/-- C3: parsing the lines "Boston MA", "Customer : [4821]-Acme Foods" and
the example item-row yields exactly one Record with the fourteen field
values of the specification (4.50 = 9/2 and 22.50 = 45/2 as exact
currency values). -/
theorem C3_example_one_record :
    (parseLines [("Boston MA").toLine, ("Customer : [4821]-Acme Foods").toLine,
      ("*HRMLSHRVS COCO 8OZ Coconut Yogurt Plain 12345678 100 95 4.50 10% 5% 22.50").toLine]).main_data
    = [⟨⟨("*HRMLSHRVS").toLine, ("COCO").toLine, ("8OZ Coconut").toLine,
        ("Yogurt Plain").toLine, ("12345678").toLine, 100, 95, mkRat 9 2,
        ("10%").toLine, ("5%").toLine, mkRat 45 2⟩,
       ("4821").toLine, ("Acme Foods").toLine, ("Boston MA").toLine⟩] := by
  decide

end UNFIWest

namespace UNFIWest

lemma pyStrip_empty_eq {l : Line} (h0 : (pyStrip l).isEmpty = true) : pyStrip l = [] := by
  cases hps : pyStrip l with
  | nil => rfl
  | cons x xs => rw [hps] at h0; simp at h0

lemma processLine_location (st : ParseState) (l : Line) :
    (processLine st l).current_location
      = if isLocHeader (pyStrip l) = true then pyStrip l else st.current_location := by
  simp only [processLine]
  by_cases h0 : (pyStrip l).isEmpty = true
  · rw [if_pos h0, pyStrip_empty_eq h0]
    rfl
  · rw [if_neg h0]
    by_cases h1 : (locMatch (pyStrip l) && !hasSub (pyStrip l) ("Customer").toLine) = true
    · rw [if_pos h1]
      have : isLocHeader (pyStrip l) = true := h1
      rw [this, if_pos rfl]
    · rw [if_neg h1]
      have hiso : isLocHeader (pyStrip l) = false := by
        simp only [isLocHeader]
        exact Bool.not_eq_true _ ▸ (by simpa using h1)
      rw [hiso]
      simp only [Bool.false_eq_true, if_false]
      by_cases h2 : leadsWith ("Customer :").toLine (pyStrip l) = true
      · rw [if_pos h2]
        cases hc : reSearchCustomer (pyStrip l) with
        | none => rfl
        | some pr => cases pr with | mk cid cname => rfl
      · rw [if_neg h2]
        by_cases h3 : leadsWith ("*HRMLSHRVS").toLine (pyStrip l) = true
        · rw [if_pos h3]
          cases hi : itemFields (pyStrip l) with
          | none => rfl
          | some f => rfl
        · rw [if_neg h3]

end UNFIWest

namespace UNFIWest

lemma processLine_customer (st : ParseState) (l : Line) :
    ((processLine st l).current_customer_id, (processLine st l).current_customer_name)
      = if isCustHeader (pyStrip l) = true then custPair (pyStrip l)
        else (st.current_customer_id, st.current_customer_name) := by
  simp only [processLine]
  by_cases h0 : (pyStrip l).isEmpty = true
  · rw [if_pos h0, pyStrip_empty_eq h0]
    rfl
  · rw [if_neg h0]
    by_cases h1 : (locMatch (pyStrip l) && !hasSub (pyStrip l) ("Customer").toLine) = true
    · rw [if_pos h1]
      have hloc : isLocHeader (pyStrip l) = true := h1
      have hcst : isCustHeader (pyStrip l) = false := by
        simp [isCustHeader, hloc]
      rw [hcst]
      simp only [Bool.false_eq_true, if_false]
    · rw [if_neg h1]
      have hloc : isLocHeader (pyStrip l) = false := by
        simp only [isLocHeader]
        simpa using h1
      by_cases h2 : leadsWith ("Customer :").toLine (pyStrip l) = true
      · rw [if_pos h2]
        cases hc : reSearchCustomer (pyStrip l) with
        | none =>
          have hcst : isCustHeader (pyStrip l) = false := by
            simp [isCustHeader, hc]
          rw [hcst]
          simp only [Bool.false_eq_true, if_false]
        | some pr =>
          cases pr with
          | mk cid cname =>
            have hcst : isCustHeader (pyStrip l) = true := by
              simp [isCustHeader, hloc, h2, hc]
            rw [hcst, if_pos rfl]
            simp [custPair, hc]
      · rw [if_neg h2]
        have hcst : isCustHeader (pyStrip l) = false := by
          simp [isCustHeader, h2]
        rw [hcst]
        simp only [Bool.false_eq_true, if_false]
        by_cases h3 : leadsWith ("*HRMLSHRVS").toLine (pyStrip l) = true
        · rw [if_pos h3]
          cases hi : itemFields (pyStrip l) with
          | none => rfl
          | some f => rfl
        · rw [if_neg h3]

lemma processLine_main_data (st : ParseState) (l : Line) :
    (processLine st l).main_data = st.main_data ∨
    (∃ f, leadsWith ("*HRMLSHRVS").toLine (pyStrip l) = true ∧
      itemFields (pyStrip l) = some f ∧
      (processLine st l).main_data = st.main_data ++
        [mkRecord f st.current_customer_id st.current_customer_name st.current_location]) := by
  simp only [processLine]
  by_cases h0 : (pyStrip l).isEmpty = true
  · rw [if_pos h0]
    exact Or.inl rfl
  · rw [if_neg h0]
    by_cases h1 : (locMatch (pyStrip l) && !hasSub (pyStrip l) ("Customer").toLine) = true
    · rw [if_pos h1]
      exact Or.inl rfl
    · rw [if_neg h1]
      by_cases h2 : leadsWith ("Customer :").toLine (pyStrip l) = true
      · rw [if_pos h2]
        cases hc : reSearchCustomer (pyStrip l) with
        | none => exact Or.inl rfl
        | some pr => cases pr with | mk cid cname => exact Or.inl rfl
      · rw [if_neg h2]
        by_cases h3 : leadsWith ("*HRMLSHRVS").toLine (pyStrip l) = true
        · rw [if_pos h3]
          cases hi : itemFields (pyStrip l) with
          | none => exact Or.inl rfl
          | some f => exact Or.inr ⟨f, h3, rfl, rfl⟩
        · rw [if_neg h3]
          exact Or.inl rfl

end UNFIWest

namespace UNFIWest

lemma foldl_location (lines : List Line) (st : ParseState) :
    (lines.foldl processLine st).current_location
      = ((lines.map pyStrip).filter isLocHeader).getLastD st.current_location := by
  induction lines generalizing st with
  | nil => rfl
  | cons l ls ih =>
    rw [List.foldl_cons, ih, List.map_cons]
    by_cases h : isLocHeader (pyStrip l) = true
    · rw [List.filter_cons_of_pos h, List.getLastD_cons, processLine_location, if_pos h]
    · rw [List.filter_cons_of_neg (by simpa using h), processLine_location, if_neg h]

lemma foldl_customer (lines : List Line) (st : ParseState) :
    ((lines.foldl processLine st).current_customer_id,
     (lines.foldl processLine st).current_customer_name)
      = (((lines.map pyStrip).filter isCustHeader).map custPair).getLastD
          (st.current_customer_id, st.current_customer_name) := by
  induction lines generalizing st with
  | nil => rfl
  | cons l ls ih =>
    rw [List.foldl_cons, ih, List.map_cons]
    by_cases h : isCustHeader (pyStrip l) = true
    · rw [List.filter_cons_of_pos h, List.map_cons, List.getLastD_cons,
        processLine_customer, if_pos h]
    · rw [List.filter_cons_of_neg (by simpa using h), processLine_customer, if_neg h]

lemma foldl_records (lines : List Line) (st : ParseState) (r : Record)
    (hr : r ∈ (lines.foldl processLine st).main_data) :
    r ∈ st.main_data ∨
    ∃ pre l suf f, lines = pre ++ l :: suf ∧
      leadsWith ("*HRMLSHRVS").toLine (pyStrip l) = true ∧
      itemFields (pyStrip l) = some f ∧
      r = mkRecord f (pre.foldl processLine st).current_customer_id
            (pre.foldl processLine st).current_customer_name
            (pre.foldl processLine st).current_location := by
  induction lines generalizing st with
  | nil => exact Or.inl hr
  | cons l ls ih =>
    rw [List.foldl_cons] at hr
    rcases ih (processLine st l) hr with h | ⟨pre, l', suf, f, heq, hs, hf, hrec⟩
    · rcases processLine_main_data st l with hm | ⟨f, hs, hf, hm⟩
      · exact Or.inl (hm ▸ h)
      · rw [hm] at h
        rcases List.mem_append.mp h with h' | h'
        · exact Or.inl h'
        · right
          refine ⟨[], l, ls, f, rfl, hs, hf, ?_⟩
          simpa using h'
    · right
      refine ⟨l :: pre, l', suf, f, by rw [heq, List.cons_append], hs, hf, ?_⟩
      rw [List.foldl_cons]
      exact hrec

/-- C4: every Record emitted by parse comes from an item-row line and
carries exactly the location and customer context installed by the most
recent matching location header and customer header strictly before that
line in scan order (empty strings when no such header precedes it); lines
after the record's own line cannot influence it. -/
theorem C4_context_inheritance (lines : List Line) (r : Record)
    (hr : r ∈ (parseLines lines).main_data) :
    ∃ pre l suf f, lines = pre ++ l :: suf ∧
      leadsWith ("*HRMLSHRVS").toLine (pyStrip l) = true ∧
      itemFields (pyStrip l) = some f ∧
      r = mkRecord f (lastCustHeader pre).1 (lastCustHeader pre).2 (lastLocHeader pre) := by
  rcases foldl_records lines initState r hr with h | ⟨pre, l, suf, f, heq, hs, hf, hrec⟩
  · exact absurd h (List.not_mem_nil r)
  · refine ⟨pre, l, suf, f, heq, hs, hf, ?_⟩
    have hl : (pre.foldl processLine initState).current_location = lastLocHeader pre :=
      foldl_location pre initState
    have hc : ((pre.foldl processLine initState).current_customer_id,
               (pre.foldl processLine initState).current_customer_name)
        = lastCustHeader pre :=
      foldl_customer pre initState
    rw [hrec, hl, ← hc]

/-- Witness for C4 at a concrete three-line document. -/
theorem C4_witness :
    (⟨⟨("*HRMLSHRVS").toLine, ("KIWI").toLine, ("12OZ Kiwi").toLine, ("Juice").toLine,
        ("87654321").toLine, 10, 9, mkRat 13 4, ("5%").toLine, ("2%").toLine, mkRat 11 1⟩,
      ("77").toLine, ("Blue Sky").toLine, ("Seattle WA").toLine⟩ : Record)
      ∈ (parseLines [("Seattle WA").toLine, ("Customer : [77]-Blue Sky").toLine,
          ("*HRMLSHRVS KIWI 12OZ Kiwi Juice 87654321 10 9 3.25 5% 2% 11.00").toLine]).main_data
    ∧ ∃ pre l suf f,
        [("Seattle WA").toLine, ("Customer : [77]-Blue Sky").toLine,
         ("*HRMLSHRVS KIWI 12OZ Kiwi Juice 87654321 10 9 3.25 5% 2% 11.00").toLine]
          = pre ++ l :: suf ∧
        leadsWith ("*HRMLSHRVS").toLine (pyStrip l) = true ∧
        itemFields (pyStrip l) = some f ∧
        (⟨⟨("*HRMLSHRVS").toLine, ("KIWI").toLine, ("12OZ Kiwi").toLine, ("Juice").toLine,
            ("87654321").toLine, 10, 9, mkRat 13 4, ("5%").toLine, ("2%").toLine, mkRat 11 1⟩,
          ("77").toLine, ("Blue Sky").toLine, ("Seattle WA").toLine⟩ : Record)
          = mkRecord f (lastCustHeader pre).1 (lastCustHeader pre).2 (lastLocHeader pre) :=
  ⟨by decide,
   C4_context_inheritance [("Seattle WA").toLine, ("Customer : [77]-Blue Sky").toLine,
     ("*HRMLSHRVS KIWI 12OZ Kiwi Juice 87654321 10 9 3.25 5% 2% 11.00").toLine] _ (by decide)⟩

end UNFIWest

namespace UNFIWest

lemma mem_splitWsAux (l : Line) (acc t : Line) (ht : t ∈ splitWsAux l acc) :
    ∀ c ∈ t, c ∈ l ∨ c ∈ acc := by
  induction l generalizing acc with
  | nil =>
    simp only [splitWsAux] at ht
    split at ht
    · exact absurd ht (List.not_mem_nil t)
    · rw [List.mem_singleton] at ht
      subst ht
      intro c hc
      exact Or.inr (List.mem_reverse.mp hc)
  | cons x xs ih =>
    simp only [splitWsAux] at ht
    by_cases hx : pyIsSpace x = true
    · rw [if_pos hx] at ht
      by_cases hacc : acc.isEmpty = true
      · rw [if_pos hacc] at ht
        intro c hc
        rcases ih [] ht c hc with h | h
        · exact Or.inl (List.mem_cons_of_mem x h)
        · exact absurd h (List.not_mem_nil c)
      · rw [if_neg hacc] at ht
        rcases List.mem_cons.mp ht with h | h
        · subst h
          intro c hc
          exact Or.inr (List.mem_reverse.mp hc)
        · intro c hc
          rcases ih [] h c hc with h' | h'
          · exact Or.inl (List.mem_cons_of_mem x h')
          · exact absurd h' (List.not_mem_nil c)
    · rw [if_neg hx] at ht
      intro c hc
      rcases ih (x :: acc) ht c hc with h | h
      · exact Or.inl (List.mem_cons_of_mem x h)
      · rcases List.mem_cons.mp h with h' | h'
        · exact Or.inl (h' ▸ List.mem_cons_self x xs)
        · exact Or.inr h'

lemma mem_splitWs {l t : Line} (ht : t ∈ splitWs l) : ∀ c ∈ t, c ∈ l := by
  intro c hc
  rcases mem_splitWsAux l [] t ht c hc with h | h
  · exact h
  · exact absurd h (List.not_mem_nil c)

lemma mem_pyStrip {c : Char} {l : Line} (h : c ∈ pyStrip l) : c ∈ l := by
  unfold pyStrip at h
  rw [List.mem_reverse] at h
  have h1 := (List.dropWhile_sublist pyIsSpace).subset h
  rw [List.mem_reverse] at h1
  exact (List.dropWhile_sublist pyIsSpace).subset h1

lemma mem_afterFirstOcc {c : Char} {l pat : Line} (h : c ∈ afterFirstOcc l pat) : c ∈ l := by
  induction l with
  | nil => exact absurd h (List.not_mem_nil c)
  | cons x xs ih =>
    unfold afterFirstOcc at h
    split at h
    · exact List.mem_of_mem_drop h
    · exact List.mem_cons_of_mem x (ih h)

lemma getD_mem {l : List Line} {n : Nat} (h : n < l.length) : l.getD n [] ∈ l := by
  rw [List.getD_eq_getElem?_getD, List.getElem?_eq_getElem h]
  exact List.getElem_mem h

lemma pyIntCore_nonneg {t : Line} {n : Int} (h : pyIntCore t = some n) : 0 ≤ n := by
  simp only [pyIntCore] at h
  split at h
  · rw [Option.some_inj] at h
    subst h
    exact Int.natCast_nonneg _
  · cases h

lemma pyInt_nonneg {t : Line} {n : Int} (h : pyInt t = some n)
    (hm : '-' ∉ t) : 0 ≤ n := by
  cases t with
  | nil =>
    simp only [pyInt] at h
    exact pyIntCore_nonneg h
  | cons c cs =>
    simp only [pyInt] at h
    rw [if_neg (fun hc : c = '-' => hm (by rw [hc]; exact List.mem_cons_self '-' cs))] at h
    by_cases hp : c = '+'
    · rw [if_pos hp] at h
      exact pyIntCore_nonneg h
    · rw [if_neg hp] at h
      exact pyIntCore_nonneg h

lemma pyFloatMag_nonneg {t : Line} {q : ℚ} (h : pyFloatMag t = some q) : 0 ≤ q := by
  simp only [pyFloatMag] at h
  split at h
  · split at h
    · cases h
    · rw [Option.some_inj] at h
      subst h
      rw [Rat.mkRat_eq_divInt]
      exact Rat.divInt_nonneg (Int.natCast_nonneg _) (Int.natCast_nonneg _)
  · split at h
    · rw [Option.some_inj] at h
      subst h
      rw [Rat.mkRat_eq_divInt]
      exact Rat.divInt_nonneg (by positivity) (by positivity)
    · cases h
  · cases h

lemma pyFloat_nonneg {t : Line} {q : ℚ} (h : pyFloat t = some q)
    (hm : '-' ∉ t) : 0 ≤ q := by
  cases t with
  | nil =>
    simp only [pyFloat] at h
    exact pyFloatMag_nonneg h
  | cons c cs =>
    simp only [pyFloat] at h
    rw [if_neg (fun hc : c = '-' => hm (by rw [hc]; exact List.mem_cons_self '-' cs))] at h
    by_cases hp : c = '+'
    · rw [if_pos hp] at h
      exact pyFloatMag_nonneg h
    · rw [if_neg hp] at h
      exact pyFloatMag_nonneg h

end UNFIWest

namespace UNFIWest

lemma fallbackCore_nonneg {line brand product unit description : Line} {f : ItemFields}
    (hf : fallbackCore line brand product unit description = some f)
    (hm : ∀ c ∈ line, c ≠ '-') :
    0 ≤ f.ordered ∧ 0 ≤ f.shipped ∧ 0 ≤ f.wholesale := by
  cases hs : reSearch89 line with
  | none =>
    simp only [fallbackCore, hs] at hf
    cases hf
  | some inv =>
    simp only [fallbackCore, hs] at hf
    split at hf
    case isFalse => cases hf
    case isTrue h5 =>
      split at hf
      case h_2 => cases hf
      case h_1 o sh wh mc ho hsh hwh hmc =>
        rw [Option.some_inj] at hf
        subst hf
        have hnm : ∀ k : Nat, k < (splitWs (pyStrip (afterFirstOcc line inv))).length →
            '-' ∉ (splitWs (pyStrip (afterFirstOcc line inv))).getD k [] := by
          intro k hk hin
          exact hm '-' (mem_afterFirstOcc (mem_pyStrip
            (mem_splitWs (getD_mem hk) '-' hin))) rfl
        refine ⟨pyInt_nonneg ho (hnm 0 (by omega)),
                pyInt_nonneg hsh (hnm 1 (by omega)),
                pyFloat_nonneg hwh (hnm 2 (by omega))⟩

lemma primaryCore_nonneg {parts : List Line} {descIndex : Nat}
    {brand product unit description : Line} {f : ItemFields}
    (hf : primaryCore parts descIndex brand product unit description = some f)
    (hm : ∀ t ∈ parts, '-' ∉ t) :
    0 ≤ f.ordered ∧ 0 ≤ f.shipped ∧ 0 ≤ f.wholesale := by
  simp only [primaryCore] at hf
  split at hf
  case h_2 => cases hf
  case h_1 o sh wh mc ho hsh hwh hmc =>
    rw [Option.some_inj] at hf
    subst hf
    refine ⟨?_, ?_, ?_⟩
    · show 0 ≤ o
      cases hg : parts.get? (descIndex + 1) with
      | none => rw [hg] at ho; rw [Option.some_inj] at ho; omega
      | some t =>
        rw [hg] at ho
        exact pyInt_nonneg ho (fun hin => hm t (List.get?_mem hg) hin)
    · show 0 ≤ sh
      cases hg : parts.get? (descIndex + 2) with
      | none => rw [hg] at hsh; rw [Option.some_inj] at hsh; omega
      | some t =>
        rw [hg] at hsh
        exact pyInt_nonneg hsh (fun hin => hm t (List.get?_mem hg) hin)
    · cases hg : parts.get? (descIndex + 3) with
      | none =>
        rw [hg] at hwh
        rw [Option.some_inj] at hwh
        subst hwh
        exact le_refl 0
      | some t =>
        rw [hg] at hwh
        exact pyFloat_nonneg hwh (fun hin => hm t (List.get?_mem hg) hin)

lemma itemFields_nonneg {line : Line} {f : ItemFields}
    (hf : itemFields line = some f) (hm : ∀ c ∈ line, c ≠ '-') :
    0 ≤ f.ordered ∧ 0 ≤ f.shipped ∧ 0 ≤ f.wholesale := by
  simp only [itemFields] at hf
  split at hf
  · cases hf
  · split at hf
    · exact fallbackCore_nonneg hf hm
    · exact primaryCore_nonneg hf
        (fun t ht hin => hm '-' (mem_splitWs ht '-' hin) rfl)

/-- Counterexample to C7 as stated: an item-row carrying the token -5
produces a Record with ordered = -5, since int() accepts signed tokens. -/
theorem C7_negative_ordered_counterexample :
    ¬ (∀ r ∈ (parseLines
        [("*HRMLSHRVS P 8OZ X Y 12345678 -5 3 4.5 10% 5% 2.0").toLine]).main_data,
        0 ≤ r.ordered ∧ 0 ≤ r.shipped ∧ 0 ≤ r.wholesale) := by
  decide

/-- C7 (amended): every Record emitted from lines containing no minus
sign has ordered, shipped and wholesale nonnegative.  (Unconditionally the
claim fails, since int()/float() accept signed tokens: see the
counterexample.) -/
theorem C7_nonneg_without_minus_sign (lines : List Line) (r : Record)
    (hm : ∀ l ∈ lines, ∀ c ∈ l, c ≠ '-')
    (hr : r ∈ (parseLines lines).main_data) :
    0 ≤ r.ordered ∧ 0 ≤ r.shipped ∧ 0 ≤ r.wholesale := by
  rcases foldl_records lines initState r hr with h | ⟨pre, l, suf, f, heq, hs, hf, hrec⟩
  · exact absurd h (List.not_mem_nil r)
  · have hl : l ∈ lines := by
      rw [heq]
      exact List.mem_append_right _ (List.mem_cons_self _ _)
    have hm' : ∀ c ∈ pyStrip l, c ≠ '-' := fun c hc => hm l hl c (mem_pyStrip hc)
    have hn := itemFields_nonneg hf hm'
    rw [hrec]
    exact hn

/-- Witness for the amended C7 at a concrete minus-free document. -/
theorem C7_nonneg_witness :
    (∀ l ∈ [("Portland OR").toLine,
        ("*HRMLSHRVS BARS 2OZ Choc Bar 23456789 12 11 2.25 3% 1% 7.50").toLine],
      ∀ c ∈ l, c ≠ '-') ∧
    (⟨⟨("*HRMLSHRVS").toLine, ("BARS").toLine, ("2OZ Choc").toLine, ("Bar").toLine,
        ("23456789").toLine, 12, 11, mkRat 9 4, ("3%").toLine, ("1%").toLine, mkRat 15 2⟩,
      [], [], ("Portland OR").toLine⟩ : Record)
      ∈ (parseLines [("Portland OR").toLine,
          ("*HRMLSHRVS BARS 2OZ Choc Bar 23456789 12 11 2.25 3% 1% 7.50").toLine]).main_data ∧
    (0 ≤ (⟨⟨("*HRMLSHRVS").toLine, ("BARS").toLine, ("2OZ Choc").toLine, ("Bar").toLine,
        ("23456789").toLine, 12, 11, mkRat 9 4, ("3%").toLine, ("1%").toLine, mkRat 15 2⟩,
      [], [], ("Portland OR").toLine⟩ : Record).ordered) :=
  ⟨by decide, by decide,
   (C7_nonneg_without_minus_sign [("Portland OR").toLine,
      ("*HRMLSHRVS BARS 2OZ Choc Bar 23456789 12 11 2.25 3% 1% 7.50").toLine]
      _ (by decide) (by decide)).1⟩

end UNFIWest

namespace UNFIWest

lemma fallbackCore_description {line b p u d : Line} {f : ItemFields}
    (hf : fallbackCore line b p u d = some f) : f.description = d := by
  cases hs : reSearch89 line with
  | none =>
    simp only [fallbackCore, hs] at hf
    cases hf
  | some inv =>
    simp only [fallbackCore, hs] at hf
    split at hf
    case isFalse => cases hf
    case isTrue h5 =>
      split at hf
      case h_2 => cases hf
      case h_1 o sh wh mc ho hsh hwh hmc =>
        rw [Option.some_inj] at hf
        subst hf
        rfl

/-- Counterexample to the invoice-containment aside of C10: with the first
8-digit run inside the unit token, the fallback path emits a Record whose
description does not contain the invoice digits. -/
theorem C10_invoice_not_in_description_counterexample :
    noAnchorTok ("*HRMLSHRVS P A12345678 7 8 3.5 4% 5% 6.0 x y").toLine = true ∧
    (itemFields ("*HRMLSHRVS P A12345678 7 8 3.5 4% 5% 6.0 x y").toLine).map
      descContainsInvoice = some false :=
  ⟨by decide, by decide⟩

/-- C10 (amended): when no whitespace token of an item-row consists
entirely of six or more digits, any Record produced (necessarily by the
fallback path) has description equal to the space-join of all tokens from
index 4 to the end of the line, so it includes the trailing numeric field
tokens.  (The claim's aside that the description then also contains the
invoice digits fails when the 8-digit run sits in the unit token: see the
counterexample.) -/
theorem C10_fallback_description_all_tokens (line : Line) (f : ItemFields)
    (hna : noAnchorTok line = true)
    (hf : itemFields line = some f) :
    f.description = joinSpace ((splitWs line).drop 4) := by
  have hall : ∀ t ∈ (splitWs line).drop 4, (!(isAnchor t)) = true := by
    intro t ht
    exact (List.all_eq_true.mp hna) t (List.mem_of_mem_drop ht)
  have htw : ((splitWs line).drop 4).takeWhile (fun t => !(isAnchor t))
      = (splitWs line).drop 4 :=
    List.takeWhile_eq_self_iff.mpr hall
  simp only [itemFields] at hf
  split at hf
  · cases hf
  case isFalse hlen =>
    rw [htw] at hf
    rw [if_pos (by rw [List.length_drop]; omega)] at hf
    exact fallbackCore_description hf

/-- Witness for the amended C10 at a concrete fallback row. -/
theorem C10_description_witness :
    noAnchorTok ("*HRMLSHRVS P B12345678 7 8 3.5 4% 5% 6.0 x y").toLine = true ∧
    itemFields ("*HRMLSHRVS P B12345678 7 8 3.5 4% 5% 6.0 x y").toLine
      = some ⟨("*HRMLSHRVS").toLine, ("P").toLine, ("B12345678 7").toLine,
          ("8 3.5 4% 5% 6.0 x y").toLine, ("12345678").toLine, 7, 8, mkRat 7 2,
          ("4%").toLine, ("5%").toLine, mkRat 6 1⟩ ∧
    (⟨("*HRMLSHRVS").toLine, ("P").toLine, ("B12345678 7").toLine,
        ("8 3.5 4% 5% 6.0 x y").toLine, ("12345678").toLine, 7, 8, mkRat 7 2,
        ("4%").toLine, ("5%").toLine, mkRat 6 1⟩ : ItemFields).description
      = joinSpace ((splitWs ("*HRMLSHRVS P B12345678 7 8 3.5 4% 5% 6.0 x y").toLine).drop 4) :=
  ⟨by decide, by decide,
   C10_fallback_description_all_tokens ("*HRMLSHRVS P B12345678 7 8 3.5 4% 5% 6.0 x y").toLine
     _ (by decide) (by decide)⟩

end UNFIWest

namespace UNFIWest

lemma splitWsAux_token (t : Line) (ht : ∀ c ∈ t, pyIsSpace c = false) :
    ∀ (rest acc : Line), splitWsAux (t ++ rest) acc = splitWsAux rest (t.reverse ++ acc) := by
  induction t with
  | nil => intro rest acc; simp
  | cons c t' ih =>
    intro rest acc
    rw [List.cons_append]
    simp only [splitWsAux, ht c (List.mem_cons_self c t'), Bool.false_eq_true, if_false]
    rw [ih (fun x hx => ht x (List.mem_cons_of_mem c hx)) rest (c :: acc)]
    simp

lemma isEmpty_reverse_of_ne {t : Line} (h : t ≠ []) : t.reverse.isEmpty = false := by
  cases hr : t.reverse with
  | nil => exact absurd (List.reverse_eq_nil_iff.mp hr) h
  | cons x xs => rfl

lemma splitWs_joinSpace (ts : List Line) (h : ∀ t ∈ ts, goodTok t) :
    splitWs (joinSpace ts) = ts := by
  induction ts with
  | nil => rfl
  | cons t ts' ih =>
    have hts : goodTok t := h t (List.mem_cons_self t ts')
    cases ts' with
    | nil =>
      show splitWs (joinSpace [t]) = [t]
      unfold splitWs
      rw [show joinSpace [t] = t ++ [] by simp [joinSpace],
        splitWsAux_token t hts.2 [] []]
      simp only [splitWsAux, List.append_nil]
      rw [if_neg (by simp [isEmpty_reverse_of_ne hts.1]), List.reverse_reverse]
    | cons t2 ts'' =>
      show splitWs (joinSpace (t :: t2 :: ts'')) = t :: t2 :: ts''
      unfold splitWs
      rw [show joinSpace (t :: t2 :: ts'') = t ++ (' ' :: joinSpace (t2 :: ts'')) from rfl,
        splitWsAux_token t hts.2 _ []]
      simp only [splitWsAux, List.append_nil]
      rw [if_pos (by decide), if_neg (by simp [isEmpty_reverse_of_ne hts.1]), List.reverse_reverse]
      rw [show splitWsAux (joinSpace (t2 :: ts'')) [] = splitWs (joinSpace (t2 :: ts'')) from rfl,
        ih (fun x hx => h x (List.mem_cons_of_mem t hx))]

lemma splitWsAux_all_space (s : Line) (hs : ∀ c ∈ s, pyIsSpace c = true) :
    ∀ acc : Line, splitWsAux s acc = if acc.isEmpty then [] else [acc.reverse] := by
  induction s with
  | nil => intro acc; rfl
  | cons c s' ih =>
    intro acc
    simp only [splitWsAux, hs c (List.mem_cons_self c s'), if_true]
    by_cases hacc : acc.isEmpty = true
    · rw [if_pos hacc, if_pos hacc, ih (fun x hx => hs x (List.mem_cons_of_mem c hx)) []]
      rfl
    · rw [if_neg hacc, if_neg hacc, ih (fun x hx => hs x (List.mem_cons_of_mem c hx)) []]
      rfl

lemma splitWsAux_append_space (s : Line) (hs : ∀ c ∈ s, pyIsSpace c = true) :
    ∀ (m acc : Line), splitWsAux (m ++ s) acc = splitWsAux m acc := by
  intro m
  induction m with
  | nil =>
    intro acc
    rw [List.nil_append, splitWsAux_all_space s hs acc]
    rfl
  | cons c m' ih =>
    intro acc
    rw [List.cons_append]
    simp only [splitWsAux]
    by_cases hc : pyIsSpace c = true
    · rw [if_pos hc, if_pos hc]
      by_cases hacc : acc.isEmpty = true
      · rw [if_pos hacc, if_pos hacc, ih []]
      · rw [if_neg hacc, if_neg hacc, ih []]
    · rw [if_neg hc, if_neg hc, ih (c :: acc)]

lemma splitWsAux_dropWhile_space (l : Line) :
    splitWsAux (l.dropWhile pyIsSpace) [] = splitWsAux l [] := by
  induction l with
  | nil => rfl
  | cons c l' ih =>
    by_cases hc : pyIsSpace c = true
    · rw [List.dropWhile_cons_of_pos hc, ih]
      simp only [splitWsAux, hc, if_true, List.isEmpty_nil, if_true]
    · rw [List.dropWhile_cons_of_neg (by simp [hc])]

lemma splitWs_pyStrip (l : Line) : splitWs (pyStrip l) = splitWs l := by
  unfold pyStrip splitWs
  have hdecomp : l.dropWhile pyIsSpace
      = ((l.dropWhile pyIsSpace).reverse.dropWhile pyIsSpace).reverse
        ++ ((l.dropWhile pyIsSpace).reverse.takeWhile pyIsSpace).reverse := by
    rw [← List.reverse_append, List.takeWhile_append_dropWhile, List.reverse_reverse]
  have hsp : ∀ c ∈ ((l.dropWhile pyIsSpace).reverse.takeWhile pyIsSpace).reverse,
      pyIsSpace c = true := by
    intro c hc
    exact List.mem_takeWhile_imp (List.mem_reverse.mp hc)
  rw [← splitWsAux_dropWhile_space l]
  calc splitWsAux ((l.dropWhile pyIsSpace).reverse.dropWhile pyIsSpace).reverse []
      = splitWsAux (((l.dropWhile pyIsSpace).reverse.dropWhile pyIsSpace).reverse
          ++ ((l.dropWhile pyIsSpace).reverse.takeWhile pyIsSpace).reverse) [] := by
        rw [splitWsAux_append_space _ hsp]
    _ = splitWsAux (l.dropWhile pyIsSpace) [] := by rw [← hdecomp]

end UNFIWest

namespace UNFIWest

lemma joinSpace_append (ts1 ts2 : List Line) (h1 : ts1 ≠ []) (h2 : ts2 ≠ []) :
    joinSpace (ts1 ++ ts2) = joinSpace ts1 ++ ' ' :: joinSpace ts2 := by
  induction ts1 with
  | nil => exact absurd rfl h1
  | cons t ts1' ih =>
    cases ts1' with
    | nil =>
      cases ts2 with
      | nil => exact absurd rfl h2
      | cons u us => rfl
    | cons t1 ts1'' =>
      rw [List.cons_append,
        show joinSpace (t :: (t1 :: ts1'' ++ ts2)) = t ++ ' ' :: joinSpace (t1 :: ts1'' ++ ts2)
          from rfl,
        ih (by simp)]
      simp [joinSpace]

lemma mem_joinSpace {c : Char} (ts : List Line) (hc : c ∈ joinSpace ts) :
    c = ' ' ∨ ∃ t ∈ ts, c ∈ t := by
  induction ts with
  | nil => exact absurd hc (List.not_mem_nil c)
  | cons t ts' ih =>
    cases ts' with
    | nil => exact Or.inr ⟨t, List.mem_cons_self t [], hc⟩
    | cons t2 ts'' =>
      rw [show joinSpace (t :: t2 :: ts'') = t ++ ' ' :: joinSpace (t2 :: ts'') from rfl] at hc
      rcases List.mem_append.mp hc with h | h
      · exact Or.inr ⟨t, List.mem_cons_self t _, h⟩
      · rcases List.mem_cons.mp h with h | h
        · exact Or.inl h
        · rcases ih h with h' | ⟨u, hu, hcu⟩
          · exact Or.inl h'
          · exact Or.inr ⟨u, List.mem_cons_of_mem t hu, hcu⟩

lemma isDigitRun_cons_not {c : Char} (l : Line) (hc : c.isDigit = false)
    {n : Nat} (hn : n ≠ 0) : isDigitRun (c :: l) n = false := by
  cases n with
  | zero => exact absurd rfl hn
  | succ m => simp [isDigitRun, List.take_succ_cons, hc]

lemma reSearch89_skip (pre : Line) (rest : Line)
    (hpre : ∀ c ∈ pre, c.isDigit = false) :
    reSearch89 (pre ++ rest) = reSearch89 rest := by
  induction pre with
  | nil => rfl
  | cons c pre' ih =>
    rw [List.cons_append]
    have hc8 := isDigitRun_cons_not (c := c) (pre' ++ rest)
      (hpre c (List.mem_cons_self c pre')) (n := 8) (by omega)
    simp only [reSearch89, hc8, Bool.false_eq_true, if_false]
    exact ih (fun x hx => hpre x (List.mem_cons_of_mem c hx))

end UNFIWest

namespace UNFIWest

lemma reSearch89_hit (inv suf : Line)
    (hdig : ∀ c ∈ inv, c.isDigit = true)
    (hlen : inv.length = 8 ∨ inv.length = 9)
    (hsuf : ∀ c ∈ suf.take 1, c.isDigit = false) :
    reSearch89 (inv ++ suf) = some inv := by
  obtain ⟨d0, inv', rfl⟩ : ∃ d0 inv', inv = d0 :: inv' := by
    cases inv with
    | nil => simp at hlen
    | cons x xs => exact ⟨x, xs, rfl⟩
  have h8 : isDigitRun ((d0 :: inv') ++ suf) 8 = true := by
    simp only [isDigitRun, Bool.and_eq_true, decide_eq_true_eq, List.all_eq_true]
    refine ⟨by simp only [List.length_append]; omega, ?_⟩
    intro c hc
    rw [List.take_append_eq_append_take] at hc
    rcases List.mem_append.mp hc with h | h
    · exact hdig c (List.mem_of_mem_take h)
    · have h1 : (8 : Nat) - (d0 :: inv').length = 0 := by omega
      rw [h1] at h
      exact absurd h (List.not_mem_nil c)
  simp only [List.cons_append] at h8
  rcases hlen with h9 | h9
  · have ht8 : List.take 8 ((d0 :: inv') ++ suf) = d0 :: inv' := List.take_left' h9
    simp only [List.cons_append] at ht8
    have h9f : isDigitRun (d0 :: (inv' ++ suf)) 9 = false := by
      cases hsuf0 : suf with
      | nil =>
        subst hsuf0
        simp only [isDigitRun]
        rw [show (decide (9 ≤ (d0 :: (inv' ++ ([] : Line))).length)) = false by
          simp only [List.length_cons, List.length_append, List.length_nil]
          rw [decide_eq_false_iff_not]
          simp only [List.length_cons] at h9
          omega]
        rfl
      | cons s0 suf' =>
        have hs0 : s0.isDigit = false := by
          apply hsuf
          rw [hsuf0]
          simp
        have ht9 : List.take 9 ((d0 :: inv') ++ s0 :: suf') = (d0 :: inv') ++ [s0] := by
          rw [List.take_append_eq_append_take,
            List.take_of_length_le (by simp only [List.length_cons] at h9 ⊢; omega),
            show (9 : Nat) - (d0 :: inv').length = 1 by
              simp only [List.length_cons] at h9 ⊢; omega]
          rfl
        simp only [List.cons_append] at ht9
        subst hsuf0
        simp only [isDigitRun, ht9]
        simp [hs0]
    rw [show (d0 :: inv') ++ suf = d0 :: (inv' ++ suf) from rfl]
    simp only [reSearch89, h8, if_true, h9f, Bool.false_eq_true, if_false, ht8]
  · have ht9 : List.take 9 ((d0 :: inv') ++ suf) = d0 :: inv' := List.take_left' h9
    simp only [List.cons_append] at ht9
    have h9t : isDigitRun (d0 :: (inv' ++ suf)) 9 = true := by
      simp only [isDigitRun, Bool.and_eq_true, decide_eq_true_eq, List.all_eq_true]
      refine ⟨by
        simp only [List.length_cons] at h9
        simp only [List.length_cons, List.length_append]
        omega, ?_⟩
      intro c hc
      rw [ht9] at hc
      exact hdig c hc
    rw [show (d0 :: inv') ++ suf = d0 :: (inv' ++ suf) from rfl]
    simp only [reSearch89, h8, if_true, h9t, ht9]

lemma leadsWith_self_append (pat suf : Line) : leadsWith pat (pat ++ suf) = true := by
  induction pat with
  | nil => rfl
  | cons p ps ih => simp [leadsWith, ih]

lemma afterFirstOcc_self (pat suf : Line) (hpat : pat ≠ []) :
    afterFirstOcc (pat ++ suf) pat = suf := by
  obtain ⟨p0, pat', rfl⟩ : ∃ p0 pat', pat = p0 :: pat' := by
    cases pat with
    | nil => exact absurd rfl hpat
    | cons x xs => exact ⟨x, xs, rfl⟩
  rw [List.cons_append]
  unfold afterFirstOcc
  rw [if_pos (by
    rw [show p0 :: (pat' ++ suf) = (p0 :: pat') ++ suf from rfl]
    exact leadsWith_self_append (p0 :: pat') suf)]
  rw [show p0 :: (pat' ++ suf) = (p0 :: pat') ++ suf from rfl]
  exact List.drop_left (p0 :: pat') suf

lemma afterFirstOcc_skip (pre rest : Line) {d0 : Char} (pat' : Line)
    (hpre : ∀ c ∈ pre, c.isDigit = false) (hd0 : d0.isDigit = true) :
    afterFirstOcc (pre ++ rest) (d0 :: pat') = afterFirstOcc rest (d0 :: pat') := by
  induction pre with
  | nil => rfl
  | cons c pre' ih =>
    rw [List.cons_append]
    have hne : leadsWith (d0 :: pat') (c :: (pre' ++ rest)) = false := by
      simp only [leadsWith, Bool.and_eq_false_iff]
      left
      simp only [decide_eq_false_iff_not]
      intro he
      rw [he, hpre c (List.mem_cons_self c pre')] at hd0
      cases hd0
    simp only [afterFirstOcc, hne, Bool.false_eq_true, if_false]
    exact ih (fun x hx => hpre x (List.mem_cons_of_mem c hx))

end UNFIWest

namespace UNFIWest

lemma getD_append_at (xs ys : List Line) (y : Line) (d : Line) :
    (xs ++ y :: ys).getD xs.length d = y := by
  rw [List.getD_eq_getElem?_getD, List.getElem?_append_right (le_refl _), Nat.sub_self,
    List.getElem?_cons_zero]
  rfl

lemma get?_append_after (xs ys : List Line) (y : Line) (k : Nat) :
    (xs ++ y :: ys).get? (xs.length + (k + 1)) = ys.get? k := by
  rw [List.get?_eq_getElem?, List.get?_eq_getElem?,
    List.getElem?_append_right (by omega),
    show xs.length + (k + 1) - xs.length = k + 1 by omega,
    List.getElem?_cons_succ]

lemma getD_append_after (xs ys : List Line) (y : Line) (k : Nat) (d : Line) :
    (xs ++ y :: ys).getD (xs.length + (k + 1)) d = ys.getD k d := by
  rw [List.getD_eq_getElem?_getD, List.getD_eq_getElem?_getD,
    List.getElem?_append_right (by omega),
    show xs.length + (k + 1) - xs.length = k + 1 by omega,
    List.getElem?_cons_succ]

lemma not_anchor_of_nodigit {t : Line} (hne : t ≠ [])
    (hnd : ∀ c ∈ t, c.isDigit = false) : isAnchor t = false := by
  obtain ⟨c0, t', rfl⟩ : ∃ c0 t', t = c0 :: t' := by
    cases t with
    | nil => exact absurd rfl hne
    | cons x xs => exact ⟨x, xs, rfl⟩
  simp [isAnchor, hnd c0 (List.mem_cons_self c0 t')]

lemma anchor_of_inv {inv : Line} (hdig : ∀ c ∈ inv, c.isDigit = true)
    (hlen : inv.length = 8 ∨ inv.length = 9) : isAnchor inv = true := by
  simp only [isAnchor, Bool.and_eq_true, decide_eq_true_eq, List.all_eq_true]
  exact ⟨by omega, hdig⟩

end UNFIWest

namespace UNFIWest

/-- Counterexample to C5 as stated: on a row whose anchor token has ten
digits, both strategies succeed but disagree (the fallback takes only the
first nine digits as invoice, shifting every following field). -/
theorem C5_ten_digit_anchor_counterexample :
    (primaryFields ("*HRMLSHRVS P 8OZ C D 1234567890 100 95 4.50 7 8 9.0").toLine).isSome
      = true ∧
    (fallbackFields ("*HRMLSHRVS P 8OZ C D 1234567890 100 95 4.50 7 8 9.0").toLine).isSome
      = true ∧
    primaryFields ("*HRMLSHRVS P 8OZ C D 1234567890 100 95 4.50 7 8 9.0").toLine
      ≠ fallbackFields ("*HRMLSHRVS P 8OZ C D 1234567890 100 95 4.50 7 8 9.0").toLine :=
  ⟨by decide, by decide, by decide⟩

/-- C5 (amended): on an item-row in clean single-space token form whose
brand, product, unit and description tokens contain no digit and whose
anchor token is exactly 8 or 9 digits, the primary positional strategy and
the regex fallback strategy produce the same record whenever both succeed.
(Unconditionally the claim fails, e.g. for a 10-digit anchor token: see
the counterexample.) -/
theorem C5_clean_row_strategies_agree
    (p0 p1 p2 p3 inv : Line) (ds ts : List Line) (f g : ItemFields)
    (htok : ∀ t ∈ p0 :: p1 :: p2 :: p3 :: (ds ++ inv :: ts), goodTok t)
    (hnod : ∀ t ∈ p0 :: p1 :: p2 :: p3 :: ds, ∀ c ∈ t, c.isDigit = false)
    (hinv : ∀ c ∈ inv, c.isDigit = true)
    (hlen : inv.length = 8 ∨ inv.length = 9)
    (hp : primaryFields (joinSpace (p0 :: p1 :: p2 :: p3 :: (ds ++ inv :: ts))) = some f)
    (hg : fallbackFields (joinSpace (p0 :: p1 :: p2 :: p3 :: (ds ++ inv :: ts))) = some g) :
    f = g := by
  have hsplit : splitWs (joinSpace (p0 :: p1 :: p2 :: p3 :: (ds ++ inv :: ts)))
      = p0 :: p1 :: p2 :: p3 :: (ds ++ inv :: ts) :=
    splitWs_joinSpace _ htok
  have hanchor : isAnchor inv = true := anchor_of_inv hinv hlen
  have hds : ∀ t ∈ ds, (!(isAnchor t)) = true := by
    intro t ht
    have hmem : t ∈ p0 :: p1 :: p2 :: p3 :: (ds ++ inv :: ts) := by
      simp [List.mem_append, ht]
    rw [not_anchor_of_nodigit (htok t hmem).1 (hnod t (by simp [ht]))]
    rfl
  have hdesc : (((p0 :: p1 :: p2 :: p3 :: (ds ++ inv :: ts)).drop 4).takeWhile
      (fun t => !(isAnchor t))) = ds := by
    show ((ds ++ inv :: ts).takeWhile (fun t => !(isAnchor t))) = ds
    exact takeWhile_append_stop ds inv ts hds (by rw [hanchor]; rfl)
  simp only [primaryFields] at hp
  rw [hsplit, hdesc] at hp
  by_cases h11 : (p0 :: p1 :: p2 :: p3 :: (ds ++ inv :: ts)).length < 11
  · rw [if_pos h11] at hp
    cases hp
  rw [if_neg h11] at hp
  by_cases hgd : (p0 :: p1 :: p2 :: p3 :: (ds ++ inv :: ts)).length ≤ 4 + ds.length + 5
  · rw [if_pos hgd] at hp
    cases hp
  rw [if_neg hgd] at hp
  have hts5 : 5 ≤ ts.length := by
    simp only [List.length_cons, List.length_append] at hgd
    omega
  obtain ⟨t0, t1, t2, t3, t4, ts5, rfl⟩ :
      ∃ t0 t1 t2 t3 t4 ts5, ts = t0 :: t1 :: t2 :: t3 :: t4 :: ts5 := by
    cases ts with
    | nil => simp at hts5
    | cons t0 r0 =>
      cases r0 with
      | nil => simp at hts5
      | cons t1 r1 =>
        cases r1 with
        | nil => simp at hts5
        | cons t2 r2 =>
          cases r2 with
          | nil => simp at hts5
          | cons t3 r3 =>
            cases r3 with
            | nil => simp at hts5
            | cons t4 ts5 => exact ⟨t0, t1, t2, t3, t4, ts5, rfl⟩
  have e0 : (p0 :: p1 :: p2 :: p3 :: (ds ++ inv :: t0 :: t1 :: t2 :: t3 :: t4 :: ts5)
        : List Line).getD (4 + ds.length) ([] : Line) = inv := by
    rw [show (p0 :: p1 :: p2 :: p3 :: (ds ++ inv :: t0 :: t1 :: t2 :: t3 :: t4 :: ts5) : List Line)
        = (p0 :: p1 :: p2 :: p3 :: ds) ++ inv :: t0 :: t1 :: t2 :: t3 :: t4 :: ts5 from rfl,
      show 4 + ds.length = (p0 :: p1 :: p2 :: p3 :: ds : List Line).length by
        simp only [List.length_cons]; omega]
    exact getD_append_at _ _ _ _
  have e1 : (p0 :: p1 :: p2 :: p3 :: (ds ++ inv :: t0 :: t1 :: t2 :: t3 :: t4 :: ts5)
        : List Line).get? (4 + ds.length + 1) = some t0 := by
    rw [show (p0 :: p1 :: p2 :: p3 :: (ds ++ inv :: t0 :: t1 :: t2 :: t3 :: t4 :: ts5) : List Line)
        = (p0 :: p1 :: p2 :: p3 :: ds) ++ inv :: t0 :: t1 :: t2 :: t3 :: t4 :: ts5 from rfl,
      show 4 + ds.length + 1 = (p0 :: p1 :: p2 :: p3 :: ds : List Line).length + (0 + 1) by
        simp only [List.length_cons]; omega,
      get?_append_after]
    rfl
  have e2 : (p0 :: p1 :: p2 :: p3 :: (ds ++ inv :: t0 :: t1 :: t2 :: t3 :: t4 :: ts5)
        : List Line).get? (4 + ds.length + 2) = some t1 := by
    rw [show (p0 :: p1 :: p2 :: p3 :: (ds ++ inv :: t0 :: t1 :: t2 :: t3 :: t4 :: ts5) : List Line)
        = (p0 :: p1 :: p2 :: p3 :: ds) ++ inv :: t0 :: t1 :: t2 :: t3 :: t4 :: ts5 from rfl,
      show 4 + ds.length + 2 = (p0 :: p1 :: p2 :: p3 :: ds : List Line).length + (1 + 1) by
        simp only [List.length_cons]; omega,
      get?_append_after]
    rfl
  have e3 : (p0 :: p1 :: p2 :: p3 :: (ds ++ inv :: t0 :: t1 :: t2 :: t3 :: t4 :: ts5)
        : List Line).get? (4 + ds.length + 3) = some t2 := by
    rw [show (p0 :: p1 :: p2 :: p3 :: (ds ++ inv :: t0 :: t1 :: t2 :: t3 :: t4 :: ts5) : List Line)
        = (p0 :: p1 :: p2 :: p3 :: ds) ++ inv :: t0 :: t1 :: t2 :: t3 :: t4 :: ts5 from rfl,
      show 4 + ds.length + 3 = (p0 :: p1 :: p2 :: p3 :: ds : List Line).length + (2 + 1) by
        simp only [List.length_cons]; omega,
      get?_append_after]
    rfl
  have e4 : (p0 :: p1 :: p2 :: p3 :: (ds ++ inv :: t0 :: t1 :: t2 :: t3 :: t4 :: ts5)
        : List Line).getD (4 + ds.length + 4) (("0%").toLine) = t3 := by
    rw [show (p0 :: p1 :: p2 :: p3 :: (ds ++ inv :: t0 :: t1 :: t2 :: t3 :: t4 :: ts5) : List Line)
        = (p0 :: p1 :: p2 :: p3 :: ds) ++ inv :: t0 :: t1 :: t2 :: t3 :: t4 :: ts5 from rfl,
      show 4 + ds.length + 4 = (p0 :: p1 :: p2 :: p3 :: ds : List Line).length + (3 + 1) by
        simp only [List.length_cons]; omega,
      getD_append_after]
    simp [List.getD_cons_succ, List.getD_cons_zero]
  have e5 : (p0 :: p1 :: p2 :: p3 :: (ds ++ inv :: t0 :: t1 :: t2 :: t3 :: t4 :: ts5)
        : List Line).getD (4 + ds.length + 5) (("0%").toLine) = t4 := by
    rw [show (p0 :: p1 :: p2 :: p3 :: (ds ++ inv :: t0 :: t1 :: t2 :: t3 :: t4 :: ts5) : List Line)
        = (p0 :: p1 :: p2 :: p3 :: ds) ++ inv :: t0 :: t1 :: t2 :: t3 :: t4 :: ts5 from rfl,
      show 4 + ds.length + 5 = (p0 :: p1 :: p2 :: p3 :: ds : List Line).length + (4 + 1) by
        simp only [List.length_cons]; omega,
      getD_append_after]
    simp [List.getD_cons_succ, List.getD_cons_zero]
  have e6 : (p0 :: p1 :: p2 :: p3 :: (ds ++ inv :: t0 :: t1 :: t2 :: t3 :: t4 :: ts5)
        : List Line).get? (4 + ds.length + 6) = ts5.get? 0 := by
    rw [show (p0 :: p1 :: p2 :: p3 :: (ds ++ inv :: t0 :: t1 :: t2 :: t3 :: t4 :: ts5) : List Line)
        = (p0 :: p1 :: p2 :: p3 :: ds) ++ inv :: t0 :: t1 :: t2 :: t3 :: t4 :: ts5 from rfl,
      show 4 + ds.length + 6 = (p0 :: p1 :: p2 :: p3 :: ds : List Line).length + (5 + 1) by
        simp only [List.length_cons]; omega,
      get?_append_after]
    rfl
  simp only [primaryCore, e0, e1, e2, e3, e4, e5, e6] at hp
  have hline : joinSpace (p0 :: p1 :: p2 :: p3 :: (ds ++ inv :: t0 :: t1 :: t2 :: t3 :: t4 :: ts5))
      = (joinSpace (p0 :: p1 :: p2 :: p3 :: ds) ++ [' '])
        ++ (inv ++ ' ' :: joinSpace (t0 :: t1 :: t2 :: t3 :: t4 :: ts5)) := by
    rw [show (p0 :: p1 :: p2 :: p3 :: (ds ++ inv :: t0 :: t1 :: t2 :: t3 :: t4 :: ts5) : List Line)
        = (p0 :: p1 :: p2 :: p3 :: ds) ++ (inv :: t0 :: t1 :: t2 :: t3 :: t4 :: ts5) from rfl,
      joinSpace_append _ _ (by simp) (by simp),
      show joinSpace (inv :: t0 :: t1 :: t2 :: t3 :: t4 :: ts5)
        = inv ++ ' ' :: joinSpace (t0 :: t1 :: t2 :: t3 :: t4 :: ts5) from rfl,
      List.append_cons]
  have hpre : ∀ c ∈ joinSpace (p0 :: p1 :: p2 :: p3 :: ds) ++ [' '], c.isDigit = false := by
    intro c hc
    rcases List.mem_append.mp hc with h | h
    · rcases mem_joinSpace _ h with h' | ⟨t, ht, hct⟩
      · rw [h']
        rfl
      · exact hnod t ht c hct
    · rw [List.mem_singleton.mp h]
      rfl
  have hsearch : reSearch89
      (joinSpace (p0 :: p1 :: p2 :: p3 :: (ds ++ inv :: t0 :: t1 :: t2 :: t3 :: t4 :: ts5)))
      = some inv := by
    rw [hline, reSearch89_skip _ _ hpre]
    refine reSearch89_hit inv _ hinv hlen ?_
    intro c hc
    rw [show (' ' :: joinSpace (t0 :: t1 :: t2 :: t3 :: t4 :: ts5)).take 1 = [' '] from rfl] at hc
    rw [List.mem_singleton.mp hc]
    rfl
  have hafter : afterFirstOcc
      (joinSpace (p0 :: p1 :: p2 :: p3 :: (ds ++ inv :: t0 :: t1 :: t2 :: t3 :: t4 :: ts5))) inv
      = ' ' :: joinSpace (t0 :: t1 :: t2 :: t3 :: t4 :: ts5) := by
    obtain ⟨d0, inv', hi⟩ : ∃ d0 inv', inv = d0 :: inv' := by
      cases inv with
      | nil => simp at hlen
      | cons x xs => exact ⟨x, xs, rfl⟩
    rw [hline, hi, afterFirstOcc_skip _ _ _ hpre
      (hinv d0 (by rw [hi]; exact List.mem_cons_self d0 inv'))]
    rw [show (d0 :: inv') ++ ' ' :: joinSpace (t0 :: t1 :: t2 :: t3 :: t4 :: ts5)
        = (d0 :: inv') ++ (' ' :: joinSpace (t0 :: t1 :: t2 :: t3 :: t4 :: ts5)) from rfl]
    exact afterFirstOcc_self _ _ (by simp)
  have hnum : splitWs (pyStrip (afterFirstOcc
      (joinSpace (p0 :: p1 :: p2 :: p3 :: (ds ++ inv :: t0 :: t1 :: t2 :: t3 :: t4 :: ts5))) inv))
      = t0 :: t1 :: t2 :: t3 :: t4 :: ts5 := by
    rw [hafter, splitWs_pyStrip,
      show splitWs (' ' :: joinSpace (t0 :: t1 :: t2 :: t3 :: t4 :: ts5))
        = splitWs (joinSpace (t0 :: t1 :: t2 :: t3 :: t4 :: ts5)) from rfl]
    refine splitWs_joinSpace _ ?_
    intro t ht
    exact htok t (by simp [List.mem_append, ht])
  simp only [fallbackFields] at hg
  rw [hsplit, hdesc] at hg
  rw [if_neg h11] at hg
  simp only [fallbackCore, hsearch, hnum] at hg
  rw [if_pos (by simp only [List.length_cons]; omega)] at hg
  simp only [List.getD_cons_zero, List.getD_cons_succ] at hp hg
  cases ts5 with
  | nil =>
    simp only [List.get?_nil] at hp
    rw [if_neg (by simp only [List.length_cons, List.length_nil]; omega)] at hg
    exact Option.some_inj.mp (hp.symm.trans hg)
  | cons u us =>
    simp only [List.get?_cons_zero] at hp
    rw [if_pos (by simp only [List.length_cons]; omega)] at hg
    simp only [List.getD_cons_zero] at hg
    exact Option.some_inj.mp (hp.symm.trans hg)

end UNFIWest

namespace UNFIWest

/-- Witness for the amended C5 at a concrete clean item row. -/
theorem C5_strategies_agree_witness :
    primaryFields (joinSpace (("*HRMLSHRVS").toLine :: ("COCO").toLine :: ("OZ").toLine ::
        ("Coconut").toLine :: ([("Yogurt").toLine, ("Plain").toLine] ++ ("12345678").toLine ::
          [("100").toLine, ("95").toLine, ("4.50").toLine, ("10%").toLine, ("5%").toLine,
           ("22.50").toLine])))
      = some ⟨("*HRMLSHRVS").toLine, ("COCO").toLine, ("OZ Coconut").toLine,
          ("Yogurt Plain").toLine, ("12345678").toLine, 100, 95, mkRat 9 2,
          ("10%").toLine, ("5%").toLine, mkRat 45 2⟩ ∧
    fallbackFields (joinSpace (("*HRMLSHRVS").toLine :: ("COCO").toLine :: ("OZ").toLine ::
        ("Coconut").toLine :: ([("Yogurt").toLine, ("Plain").toLine] ++ ("12345678").toLine ::
          [("100").toLine, ("95").toLine, ("4.50").toLine, ("10%").toLine, ("5%").toLine,
           ("22.50").toLine])))
      = some ⟨("*HRMLSHRVS").toLine, ("COCO").toLine, ("OZ Coconut").toLine,
          ("Yogurt Plain").toLine, ("12345678").toLine, 100, 95, mkRat 9 2,
          ("10%").toLine, ("5%").toLine, mkRat 45 2⟩ ∧
    (⟨("*HRMLSHRVS").toLine, ("COCO").toLine, ("OZ Coconut").toLine,
        ("Yogurt Plain").toLine, ("12345678").toLine, 100, 95, mkRat 9 2,
        ("10%").toLine, ("5%").toLine, mkRat 45 2⟩ : ItemFields)
      = ⟨("*HRMLSHRVS").toLine, ("COCO").toLine, ("OZ Coconut").toLine,
          ("Yogurt Plain").toLine, ("12345678").toLine, 100, 95, mkRat 9 2,
          ("10%").toLine, ("5%").toLine, mkRat 45 2⟩ :=
  ⟨by decide, by decide,
   C5_clean_row_strategies_agree ("*HRMLSHRVS").toLine ("COCO").toLine ("OZ").toLine
     ("Coconut").toLine ("12345678").toLine [("Yogurt").toLine, ("Plain").toLine]
     [("100").toLine, ("95").toLine, ("4.50").toLine, ("10%").toLine, ("5%").toLine,
      ("22.50").toLine]
     _ _ (by decide) (by decide) (by decide) (by decide) (by decide) (by decide)⟩

end UNFIWest
